import Mathlib

/-
  Verification of the normalization and relational-ingestion pipeline of the
  Chatbot_Scopus repository.

  The definitions below are shallow embeddings of the Python source files
  src/processing/database.py, src/processing/data_cleaning.py and the output
  format of src/extraction/arxiv_api.py.  Python strings are modelled as Lean
  String (lists of characters), NaN-able CSV cells as Option String, SQLite
  tables as lists of row structures with an explicit autoincrement counter,
  and raised exceptions as Except.error values.
-/

/-! ### Python string primitives -/

/-- Whitespace characters stripped by the Python method str.strip
    (ASCII subset, which covers every input appearing in this development). -/
def pyIsSpace (c : Char) : Bool :=
  c = ' ' || c = '\t' || c = '\n' || c = '\r' || c = '\x0b' || c = '\x0c'

/-- Left strip on character lists. -/
def lstripL (l : List Char) : List Char := l.dropWhile pyIsSpace

/-- Right strip on character lists. -/
def rstripL (l : List Char) : List Char := (l.reverse.dropWhile pyIsSpace).reverse

/-- Both-ends strip on character lists, the Python method str.strip. -/
def stripL (l : List Char) : List Char := rstripL (lstripL l)

/-- The Python method str.strip on strings. -/
def pyStrip (s : String) : String := (stripL s.toList).asString

/-- Whether pat is a leading segment of l. -/
def hasPfx : List Char → List Char → Bool
  | [], _ => true
  | _ :: _, [] => false
  | p :: ps, c :: cs => p = c && hasPfx ps cs

/-- Fuel-driven scanner for replaceAll; the fuel is one unit per character of
    the remaining input, so with fuel at least the input length the fuel is
    never exhausted before the input is. -/
def replaceAllF (pat rep : List Char) : Nat → List Char → List Char
  | 0, l => l
  | _ + 1, [] => []
  | fuel + 1, c :: cs =>
    if hasPfx pat (c :: cs) then rep ++ replaceAllF pat rep fuel (cs.drop (pat.length - 1))
    else c :: replaceAllF pat rep fuel cs

/-- The Python method str.replace: replace every non-overlapping occurrence
    of pat by rep, scanning left to right and never rescanning the
    replacement text. -/
def replaceAll (pat rep l : List Char) : List Char := replaceAllF pat rep l.length l

/-- Whether pat occurs anywhere inside l. -/
def containsPat (pat : List Char) : List Char → Bool
  | [] => hasPfx pat []
  | c :: cs => hasPfx pat (c :: cs) || containsPat pat cs

/-- The replacement table of DataCleaner.clean_text, in source order. -/
def cleanReplacements : List (List Char × List Char) :=
  [("\n".toList, " ".toList), ("\r".toList, " ".toList), ("\t".toList, " ".toList),
   ("&amp;".toList, "&".toList), ("&quot;".toList, "\"".toList),
   ("&gt;".toList, ">".toList), ("&lt;".toList, "<".toList),
   ("&#39;".toList, "\x27".toList)]

/-- Sequential application of the clean_text replacement table. -/
def applyReplacements : List (List Char × List Char) → List Char → List Char
  | [], l => l
  | pr :: rest, l => applyReplacements rest (replaceAll pr.1 pr.2 l)

/-- DataCleaner.clean_text on a string input (the pd.isna branch never
    applies to a genuine string; str of a string is the string itself). -/
def clean_text (s : String) : String :=
  (stripL (applyReplacements cleanReplacements s.toList)).asString

/-- A cleaned string with no residual occurrence of any replacement source
    pattern: on such strings a further cleaning pass has nothing to replace. -/
def noResidual (s : String) : Bool :=
  cleanReplacements.all (fun pr => !(containsPat pr.1 s.toList))

/-! ### Lemmas about the string primitives -/

theorem dropWhile_self_idem (p : Char → Bool) (l : List Char) :
    (l.dropWhile p).dropWhile p = l.dropWhile p := by
  induction l with
  | nil => rfl
  | cons c cs ih =>
    by_cases h : p c
    · simp [List.dropWhile, h, ih]
    · simp [List.dropWhile, h]

theorem lstripL_idem (l : List Char) : lstripL (lstripL l) = lstripL l :=
  dropWhile_self_idem pyIsSpace l

theorem rstripL_idem (l : List Char) : rstripL (rstripL l) = rstripL l := by
  unfold rstripL
  rw [List.reverse_reverse, dropWhile_self_idem]

theorem dropWhile_eq_self_of_head (p : Char → Bool) (l : List Char)
    (h : ∀ c, l.head? = some c → p c = false) : l.dropWhile p = l := by
  cases l with
  | nil => rfl
  | cons c cs =>
    have hc : p c = false := h c rfl
    simp [List.dropWhile, hc]

theorem head?_dropWhile_false (p : Char → Bool) (l : List Char) :
    ∀ c, (l.dropWhile p).head? = some c → p c = false := by
  induction l with
  | nil => intro c h; simp [List.dropWhile] at h
  | cons a as ih =>
    intro c h
    by_cases ha : p a
    · exact ih c (by simpa [List.dropWhile, ha] using h)
    · simp [List.dropWhile, ha] at h
      subst h; exact eq_false_of_ne_true (by simpa using ha)

theorem rstripL_sublist_head (l : List Char) :
    ∀ c, (rstripL l).head? = some c → l.head? = some c := by
  intro c h
  unfold rstripL at h
  have hsuf : l.reverse.dropWhile pyIsSpace <:+ l.reverse := List.dropWhile_suffix pyIsSpace
  obtain ⟨t, ht⟩ := hsuf
  have : l = (l.reverse.dropWhile pyIsSpace).reverse ++ t.reverse := by
    have := congrArg List.reverse ht
    simpa [List.reverse_append] using this.symm
  rw [this]
  rcases hr : (l.reverse.dropWhile pyIsSpace).reverse with _ | ⟨a, as⟩
  · rw [hr] at h; simp at h
  · rw [hr] at h
    simp at h
    simp [hr, h]

theorem lstripL_rstripL_lstripL (l : List Char) :
    lstripL (rstripL (lstripL l)) = rstripL (lstripL l) := by
  apply dropWhile_eq_self_of_head
  intro c hc
  have hhead : (lstripL l).head? = some c := rstripL_sublist_head _ c hc
  exact head?_dropWhile_false pyIsSpace l c hhead

theorem stripL_idem (l : List Char) : stripL (stripL l) = stripL l := by
  unfold stripL
  rw [lstripL_rstripL_lstripL, rstripL_idem]

theorem hasPfx_false_of_containsPat_false (pat : List Char) (c : Char) (cs : List Char)
    (h : containsPat pat (c :: cs) = false) :
    hasPfx pat (c :: cs) = false ∧ containsPat pat cs = false := by
  unfold containsPat at h
  exact Bool.or_eq_false_iff.mp h

theorem replaceAllF_eq_self_of_not_contains (pat rep : List Char) :
    ∀ (fuel : Nat) (l : List Char), containsPat pat l = false →
      replaceAllF pat rep fuel l = l := by
  intro fuel
  induction fuel with
  | zero => intro l _; rfl
  | succ f ih =>
    intro l h
    cases l with
    | nil => rfl
    | cons c cs =>
      obtain ⟨h1, h2⟩ := hasPfx_false_of_containsPat_false pat c cs h
      simp only [replaceAllF]
      rw [if_neg (by simp [h1]), ih cs h2]

theorem replaceAll_eq_self_of_not_contains (pat rep : List Char) (l : List Char)
    (h : containsPat pat l = false) : replaceAll pat rep l = l :=
  replaceAllF_eq_self_of_not_contains pat rep l.length l h

theorem applyReplacements_eq_self (prs : List (List Char × List Char)) (l : List Char)
    (h : ∀ pr ∈ prs, containsPat pr.1 l = false) : applyReplacements prs l = l := by
  induction prs with
  | nil => rfl
  | cons pr rest ih =>
    rw [applyReplacements, replaceAll_eq_self_of_not_contains pr.1 pr.2 l (h pr (by simp)),
      ih (fun q hq => h q (by simp [hq]))]

theorem toList_asString (l : List Char) : (l.asString).toList = l := rfl

/-- C6 counterexample: cleaning the string given by an ampersand entity whose
    payload is itself an ampersand entity is not idempotent. -/
theorem clean_text_not_idempotent_cx :
    clean_text (clean_text "&amp;amp;") ≠ clean_text "&amp;amp;" := by decide

/-- C6 (amended): clean_text is a pure function, and it is idempotent on every
    string whose cleaned form has no residual occurrence of a replacement
    source pattern; the residual case (for example the double-encoded
    ampersand entity) is the only failure of idempotence. -/
theorem clean_text_idem_of_noResidual (s : String)
    (h : noResidual (clean_text s) = true) :
    clean_text (clean_text s) = clean_text s := by
  have hres : ∀ pr ∈ cleanReplacements, containsPat pr.1 (clean_text s).toList = false := by
    intro pr hpr
    have := (List.all_eq_true.mp h) pr hpr
    simpa using this
  show (stripL (applyReplacements cleanReplacements (clean_text s).toList)).asString
      = clean_text s
  rw [applyReplacements_eq_self _ _ hres]
  show (stripL ((stripL (applyReplacements cleanReplacements s.toList)).asString).toList).asString
      = clean_text s
  rw [toList_asString, stripL_idem]
  rfl

/-- C6 witness: a concrete string with an entity decodes in one pass and is
    then a fixed point of clean_text. -/
theorem clean_text_idem_witness :
    clean_text (clean_text "a &amp; b") = clean_text "a &amp; b" :=
  clean_text_idem_of_noResidual "a &amp; b" (by decide)

deriving instance DecidableEq for Except

/-! ### Missing-value sentinels (C7) -/

/-- The fillna default applied to the dc:description column in
    DataCleaner.clean_dataframe: a record with a missing abstract cell gets
    this literal sentinel text. -/
def fillna_description (d : Option String) : String :=
  d.getD "Abstract not available"

/-- The doi sentinel mapping inside insert_article in database.py: the
    literal AUCUN sentinel becomes NULL, every other value is stored
    verbatim, and an absent cell stays NULL. -/
def doiSentinel (d : Option String) : Option String :=
  if d = some "AUCUN" then none else d

/-- The comment sentinel mapping inside insert_article. -/
def commentSentinel (d : Option String) : Option String :=
  if d = some "AUCUN" || d = some "VIDE" then none else d

/-- The journal_ref sentinel mapping inside insert_article. -/
def journalRefSentinel (d : Option String) : Option String :=
  if d = some "AUCUNE" || d = some "AUCUN" then none else d

/-- C7 counterexample: the abstract default the code writes is the string
    Abstract not available, not No abstract available, and an absent doi is
    stored as NULL, not as the string NONE. -/
theorem missing_field_defaults_cx :
    fillna_description none ≠ "No abstract available" ∧
    doiSentinel none ≠ some "NONE" := by decide

/-- C7 (amended): a record with no abstract gets the literal default
    Abstract not available, and a doi that is absent or equal to the AUCUN
    sentinel is stored as NULL. -/
theorem missing_field_defaults_amended :
    fillna_description none = "Abstract not available" ∧
    doiSentinel none = none ∧
    doiSentinel (some "AUCUN") = none := by decide

/-! ### The arXiv ingestion pipeline (database.py) -/

/-- One raw CSV record as read by database.py main; a NaN cell is none. -/
structure Record where
  arxiv_id : Option String := none
  title : Option String := none
  abstract : Option String := none
  published : Option String := none
  updated : Option String := none
  domain : Option String := none
  doi : Option String := none
  comment : Option String := none
  journal_ref : Option String := none
  pdf_url : Option String := none
  authors : Option String := none
  categories : Option String := none
deriving Repr, DecidableEq

/-- A row of the articles table of db.sqlite. -/
structure ArticleRow where
  id : Nat
  arxiv_id : Option String
  title : Option String
  abstract : Option String
  published : Option String
  updated : Option String
  domain : Option String
  doi : Option String
  comment : Option String
  journal_ref : Option String
  pdf_url : Option String
deriving Repr, DecidableEq

/-- A row of the authors table (name UNIQUE). -/
structure AuthorRow where
  id : Nat
  name : String
  affiliation : Option String
deriving Repr, DecidableEq

/-- A row of the categories table (name UNIQUE). -/
structure CategoryRow where
  id : Nat
  name : String
deriving Repr, DecidableEq

/-- A row of the article_authors join table, PRIMARY KEY (article_id, author_id). -/
structure ALink where
  article_id : Nat
  author_id : Nat
  position : Nat
deriving Repr, DecidableEq

/-- A row of the article_categories join table, PRIMARY KEY (article_id, category_id). -/
structure CLink where
  article_id : Nat
  category_id : Nat
deriving Repr, DecidableEq

/-- The whole db.sqlite store, with the three autoincrement counters. -/
structure DB where
  articles : List ArticleRow
  authors : List AuthorRow
  categories : List CategoryRow
  article_authors : List ALink
  article_categories : List CLink
  nextArticle : Nat
  nextAuthor : Nat
  nextCategory : Nat
deriving Repr, DecidableEq

def initDB : DB := ⟨[], [], [], [], [], 1, 1, 1⟩

/-- SELECT of the first articles row whose arxiv_id equals the given
    non-null key (rows are kept in rowid order). -/
def lookupArticle (k : String) : List ArticleRow → Option ArticleRow
  | [] => none
  | a :: tl => if a.arxiv_id = some k then some a else lookupArticle k tl

/-- SELECT id FROM authors WHERE name = given name. -/
def lookupAuthor (n : String) : List AuthorRow → Option AuthorRow
  | [] => none
  | a :: tl => if a.name = n then some a else lookupAuthor n tl

/-- SELECT id FROM categories WHERE name = given name. -/
def lookupCategory (n : String) : List CategoryRow → Option CategoryRow
  | [] => none
  | c :: tl => if c.name = n then some c else lookupCategory n tl

/-- Whether the article_authors table already holds the given pair. -/
def hasALink (aid uid : Nat) : List ALink → Bool
  | [] => false
  | l :: tl => (l.article_id = aid && l.author_id = uid) || hasALink aid uid tl

/-- Whether the article_categories table already holds the given pair. -/
def hasCLink (aid cid : Nat) : List CLink → Bool
  | [] => false
  | l :: tl => (l.article_id = aid && l.category_id = cid) || hasCLink aid cid tl

/-- The articles row INSERT built by insert_article, with the three
    sentinel-to-NULL mappings of the source. -/
def articleRowOf (i : Nat) (r : Record) : ArticleRow :=
  ⟨i, r.arxiv_id, r.title, r.abstract, r.published, r.updated, r.domain,
   doiSentinel r.doi, commentSentinel r.comment, journalRefSentinel r.journal_ref,
   r.pdf_url⟩

def addArticle (db : DB) (r : Record) : DB :=
  { db with articles := db.articles ++ [articleRowOf db.nextArticle r],
            nextArticle := db.nextArticle + 1 }

/-- insert_article of database.py: INSERT OR IGNORE keyed by the UNIQUE
    arxiv_id column, then SELECT the id by that key.  A NULL key never
    conflicts with the UNIQUE constraint, so the row is inserted, and the
    following SELECT finds nothing, so fetchone() returns None and the
    subscript raises a TypeError. -/
def insert_article (db : DB) (r : Record) : DB × Except String Nat :=
  match r.arxiv_id with
  | none => (addArticle db r, Except.error "TypeError")
  | some k =>
    match lookupArticle k db.articles with
    | some row => (db, Except.ok row.id)
    | none =>
      let db1 := addArticle db r
      match lookupArticle k db1.articles with
      | some row => (db1, Except.ok row.id)
      | none => (db1, Except.error "unreachable")

/-- get_author_id of database.py: get-or-create by author name, inserting
    with a NULL affiliation. -/
def get_author_id (db : DB) (n : String) : DB × Nat :=
  match lookupAuthor n db.authors with
  | some a => (db, a.id)
  | none =>
    ({ db with authors := db.authors ++ [⟨db.nextAuthor, n, none⟩],
               nextAuthor := db.nextAuthor + 1 }, db.nextAuthor)

/-- get_category_id of database.py: get-or-create by category name. -/
def get_category_id (db : DB) (n : String) : DB × Nat :=
  match lookupCategory n db.categories with
  | some c => (db, c.id)
  | none =>
    ({ db with categories := db.categories ++ [⟨db.nextCategory, n⟩],
               nextCategory := db.nextCategory + 1 }, db.nextCategory)

/-- INSERT OR IGNORE INTO article_authors: a present (article, author) pair
    is left untouched whatever its stored position. -/
def addALinkIfNew (db : DB) (aid uid pos : Nat) : DB :=
  if hasALink aid uid db.article_authors then db
  else { db with article_authors := db.article_authors ++ [⟨aid, uid, pos⟩] }

/-- INSERT OR IGNORE INTO article_categories. -/
def addCLinkIfNew (db : DB) (aid cid : Nat) : DB :=
  if hasCLink aid cid db.article_categories then db
  else { db with article_categories := db.article_categories ++ [⟨aid, cid⟩] }

/-- The Python method str.split with a semicolon separator: every separator
    occurrence delimits, empty pieces are kept. -/
def splitSemiAux : List Char → List Char → List (List Char)
  | [], acc => [acc.reverse]
  | c :: cs, acc =>
    if c = ';' then acc.reverse :: splitSemiAux cs []
    else splitSemiAux cs (c :: acc)

/-- str.split on a semicolon, at the string level. -/
def splitSemi (s : String) : List String :=
  (splitSemiAux s.toList []).map List.asString

/-- The author-piece list comprehension of main: split on semicolons, strip
    each piece, and drop the pieces that are empty after stripping. -/
def splitClean (s : String) : List String :=
  ((splitSemi s).map pyStrip).filter (fun x => x ≠ "")

/-- The author name list of one record (a NaN authors cell yields none). -/
def authorNames (r : Record) : List String :=
  match r.authors with
  | none => []
  | some s => splitClean s

/-- The category name list of one record: skipped when the cell is NaN or
    empty after stripping. -/
def catNames (r : Record) : List String :=
  match r.categories with
  | none => []
  | some s => if pyStrip s = "" then [] else splitClean s

/-- The author loop of main: enumerate positions from zero, resolve each
    name and idempotently insert the link row. -/
def linkAuthors : DB → Nat → List String → Nat → DB
  | db, _, [], _ => db
  | db, aid, n :: ns, pos =>
    let p := get_author_id db n
    linkAuthors (addALinkIfNew p.1 aid p.2 pos) aid ns (pos + 1)

/-- The category loop of main. -/
def linkCats : DB → Nat → List String → DB
  | db, _, [] => db
  | db, aid, c :: cs =>
    let p := get_category_id db c
    linkCats (addCLinkIfNew p.1 aid p.2) aid cs

/-- One iteration of the record loop of main.  Every statement commits
    immediately, so on an exception the state reached so far persists. -/
def processRecord (db : DB) (r : Record) : DB × Except String Unit :=
  match insert_article db r with
  | (db1, Except.error e) => (db1, Except.error e)
  | (db1, Except.ok aid) =>
    let db2 := linkAuthors db1 aid (authorNames r) 0
    let db3 := linkCats db2 aid (catNames r)
    (db3, Except.ok ())

/-- The record loop of main: sequential, an uncaught exception aborts the run. -/
def ingest : DB → List Record → DB × Except String Unit
  | db, [] => (db, Except.ok ())
  | db, r :: rs =>
    match processRecord db r with
    | (db1, Except.ok _) => ingest db1 rs
    | (db1, Except.error e) => (db1, Except.error e)

def countALinks (links : List ALink) (uid : Nat) : Nat :=
  (links.filter (fun l => l.author_id = uid)).length

/-- The UPDATE of one author row performed by update_author_affiliations:
    the affiliation column is overwritten with the decimal string of the
    article count of that author; id and name are untouched. -/
def updAuthorRow (links : List ALink) (a : AuthorRow) : AuthorRow :=
  { a with affiliation := some (Nat.repr (countALinks links a.id)) }

/-- update_author_affiliations of database.py: overwrite every author
    affiliation with the decimal string of its article count. -/
def update_author_affiliations (db : DB) : DB :=
  { db with authors := db.authors.map (updAuthorRow db.article_authors) }

/-- main of database.py run over an existing store: ingest every record and
    then recompute the author counts (skipped when the run aborts). -/
def runMainOn (db : DB) (rs : List Record) : DB × Except String Unit :=
  match ingest db rs with
  | (db1, Except.ok _) => (update_author_affiliations db1, Except.ok ())
  | (db1, Except.error e) => (db1, Except.error e)

/-- main of database.py on a fresh store. -/
def runMain (rs : List Record) : DB × Except String Unit := runMainOn initDB rs

/-! ### C3: the article upsert -/

theorem lookupArticle_append (k : String) (l t : List ArticleRow) :
    lookupArticle k (l ++ t) =
      (match lookupArticle k l with
       | some row => some row
       | none => lookupArticle k t) := by
  induction l with
  | nil => simp [lookupArticle]
  | cons a tl ih =>
    by_cases h : a.arxiv_id = some k
    · simp [lookupArticle, h]
    · simp [lookupArticle, h, ih]

/-- C3: insert_article is an idempotent upsert keyed on the record arxiv_id.
    If a row with that key exists, the store is completely unchanged and the
    id of the existing row is returned; if no row has that key, exactly one
    new row is appended (taking the next autoincrement id) and its id is
    returned. -/
theorem insert_article_upsert (db : DB) (r : Record) (k : String)
    (hk : r.arxiv_id = some k) :
    (∀ row, lookupArticle k db.articles = some row →
        insert_article db r = (db, Except.ok row.id)) ∧
    (lookupArticle k db.articles = none →
        insert_article db r =
          ({ db with articles := db.articles ++ [articleRowOf db.nextArticle r],
                     nextArticle := db.nextArticle + 1 },
           Except.ok db.nextArticle)) := by
  constructor
  · intro row hrow
    simp [insert_article, hk, hrow]
  · intro hnone
    have hlook : lookupArticle k (db.articles ++ [articleRowOf db.nextArticle r])
        = some (articleRowOf db.nextArticle r) := by
      rw [lookupArticle_append, hnone]
      simp [lookupArticle, articleRowOf, hk]
    simp only [insert_article, hk, hnone, addArticle, hlook]
    simp [articleRowOf]

def c3row : ArticleRow :=
  ⟨1, some "2301.00001", none, none, none, none, none, none, none, none, none⟩

def c3db : DB := ⟨[c3row], [], [], [], [], 2, 1, 1⟩

def c3rec : Record := { arxiv_id := some "2301.00001" }

/-- C3 witness: upserting a record whose key is already present returns the
    existing surrogate id and leaves the store unchanged. -/
theorem insert_article_upsert_witness :
    insert_article c3db c3rec = (c3db, Except.ok 1) :=
  (insert_article_upsert c3db c3rec "2301.00001" rfl).1 c3row (by decide)

/-! ### C4: no per-record rollback -/

/-- C4 (amended): there is no per-record transaction in database.py: every
    statement is committed immediately and nothing is ever rolled back.  In
    particular a record whose arxiv_id cell is NULL first persists its
    article row (the UNIQUE constraint never fires on NULL) and then raises
    a TypeError on the id lookup, leaving the new article row in the store
    with no links attached. -/
theorem no_per_record_rollback (db : DB) (r : Record) (h : r.arxiv_id = none) :
    processRecord db r =
      ({ db with articles := db.articles ++ [articleRowOf db.nextArticle r],
                 nextArticle := db.nextArticle + 1 },
       Except.error "TypeError") := by
  simp [processRecord, insert_article, h, addArticle]

def c4rec : Record := { arxiv_id := none, authors := some "X. Writer" }

/-- C4 counterexample: processing the NULL-keyed record fails partway, yet
    the store is not left in the state it had before the record: the failed
    record has already persisted an article row. -/
theorem no_rollback_cx :
    (processRecord initDB c4rec).2 = Except.error "TypeError" ∧
    (processRecord initDB c4rec).1 ≠ initDB := by decide

def c4recW : Record := { arxiv_id := none }

/-- C4 witness for the amended statement, at a concrete record and store. -/
theorem no_per_record_rollback_witness :
    processRecord initDB c4recW =
      ({ initDB with articles := [articleRowOf 1 c4recW], nextArticle := 2 },
       Except.error "TypeError") := by
  have h := no_per_record_rollback initDB c4recW rfl
  simpa [initDB] using h

/-! ### C8: plain-text author splitting -/

def c8rec : Record :=
  { arxiv_id := some "x1", authors := some "A. Smith (MIT); B. Lee" }

/-- C8 counterexample: for the author field given in the claim, the pipeline
    does not extract the name A. Smith: the parenthetical affiliation stays
    inside the stored author name. -/
theorem author_roundtrip_cx :
    ((processRecord initDB c8rec).1.authors.map AuthorRow.name)
      ≠ ["A. Smith", "B. Lee"] := by decide

/-- C8 (amended): splitting the plain-text field A. Smith (MIT); B. Lee on
    semicolons yields the two author rows named A. Smith (MIT) and B. Lee in
    that order, each with NULL affiliation, linked at positions 0 and 1; no
    parenthetical affiliation is ever parsed out of a piece. -/
theorem author_roundtrip_amended :
    (processRecord initDB c8rec).1.authors =
      [⟨1, "A. Smith (MIT)", none⟩, ⟨2, "B. Lee", none⟩] ∧
    (processRecord initDB c8rec).1.article_authors =
      [⟨1, 1, 0⟩, ⟨1, 2, 1⟩] := by decide

/-! ### C9: category splitting -/

def c9pipe : Record := { arxiv_id := some "p1", categories := some "cs.AI|cs.LG" }

def c9semi : Record := { arxiv_id := some "p2", categories := some "cs.AI; cs.LG" }

/-- C9 counterexample: the pipe-delimited input is not split: ingestion
    stores the single category cs.AI|cs.LG, not the pair of categories the
    claim requires. -/
theorem category_normalization_cx :
    ((processRecord initDB c9pipe).1.categories.map CategoryRow.name)
        = ["cs.AI|cs.LG"] ∧
    ["cs.AI|cs.LG"] ≠ ["cs.AI", "cs.LG"] := by decide

/-- C9 (amended): ingestion splits category strings on semicolons only, so
    the semicolon-delimited input yields the categories cs.AI and cs.LG
    while the pipe-delimited input (the join format the arXiv extractor
    writes) is kept unchanged as one category. -/
theorem category_normalization_amended :
    ((processRecord initDB c9semi).1.categories.map CategoryRow.name)
        = ["cs.AI", "cs.LG"] ∧
    ((processRecord initDB c9pipe).1.categories.map CategoryRow.name)
        = ["cs.AI|cs.LG"] := by decide

/-! ### Store extension order and lookup stability -/

/-- One store extends another when every table of the second is a prefix of
    the corresponding table of the first: the pipeline only ever appends
    rows during ingestion. -/
def DBext (d e : DB) : Prop :=
  (∃ t, e.articles = d.articles ++ t) ∧
  (∃ t, e.authors = d.authors ++ t) ∧
  (∃ t, e.categories = d.categories ++ t) ∧
  (∃ t, e.article_authors = d.article_authors ++ t) ∧
  (∃ t, e.article_categories = d.article_categories ++ t)

theorem DBext_refl (d : DB) : DBext d d :=
  ⟨⟨[], by simp⟩, ⟨[], by simp⟩, ⟨[], by simp⟩, ⟨[], by simp⟩, ⟨[], by simp⟩⟩

theorem DBext_trans {a b c : DB} (h1 : DBext a b) (h2 : DBext b c) : DBext a c := by
  obtain ⟨⟨t1, e1⟩, ⟨t2, e2⟩, ⟨t3, e3⟩, ⟨t4, e4⟩, ⟨t5, e5⟩⟩ := h1
  obtain ⟨⟨s1, f1⟩, ⟨s2, f2⟩, ⟨s3, f3⟩, ⟨s4, f4⟩, ⟨s5, f5⟩⟩ := h2
  exact ⟨⟨t1 ++ s1, by rw [f1, e1, List.append_assoc]⟩,
         ⟨t2 ++ s2, by rw [f2, e2, List.append_assoc]⟩,
         ⟨t3 ++ s3, by rw [f3, e3, List.append_assoc]⟩,
         ⟨t4 ++ s4, by rw [f4, e4, List.append_assoc]⟩,
         ⟨t5 ++ s5, by rw [f5, e5, List.append_assoc]⟩⟩

theorem lookupArticle_append_some {k : String} {l : List ArticleRow} {row : ArticleRow}
    (t : List ArticleRow) (h : lookupArticle k l = some row) :
    lookupArticle k (l ++ t) = some row := by
  rw [lookupArticle_append, h]

theorem lookupAuthor_append (n : String) (l t : List AuthorRow) :
    lookupAuthor n (l ++ t) =
      (match lookupAuthor n l with
       | some a => some a
       | none => lookupAuthor n t) := by
  induction l with
  | nil => simp [lookupAuthor]
  | cons a tl ih =>
    by_cases h : a.name = n
    · simp [lookupAuthor, h]
    · simp [lookupAuthor, h, ih]

theorem lookupAuthor_append_some {n : String} {l : List AuthorRow} {u : AuthorRow}
    (t : List AuthorRow) (h : lookupAuthor n l = some u) :
    lookupAuthor n (l ++ t) = some u := by
  rw [lookupAuthor_append, h]

theorem lookupCategory_append (n : String) (l t : List CategoryRow) :
    lookupCategory n (l ++ t) =
      (match lookupCategory n l with
       | some c => some c
       | none => lookupCategory n t) := by
  induction l with
  | nil => simp [lookupCategory]
  | cons c tl ih =>
    by_cases h : c.name = n
    · simp [lookupCategory, h]
    · simp [lookupCategory, h, ih]

theorem lookupCategory_append_some {n : String} {l : List CategoryRow} {c : CategoryRow}
    (t : List CategoryRow) (h : lookupCategory n l = some c) :
    lookupCategory n (l ++ t) = some c := by
  rw [lookupCategory_append, h]

theorem hasALink_append (aid uid : Nat) (l t : List ALink) :
    hasALink aid uid (l ++ t) = (hasALink aid uid l || hasALink aid uid t) := by
  induction l with
  | nil => simp [hasALink]
  | cons x tl ih => simp [hasALink, ih, Bool.or_assoc]

theorem hasALink_append_true {aid uid : Nat} {l : List ALink}
    (t : List ALink) (h : hasALink aid uid l = true) :
    hasALink aid uid (l ++ t) = true := by
  rw [hasALink_append, h, Bool.true_or]

theorem hasCLink_append (aid cid : Nat) (l t : List CLink) :
    hasCLink aid cid (l ++ t) = (hasCLink aid cid l || hasCLink aid cid t) := by
  induction l with
  | nil => simp [hasCLink]
  | cons x tl ih => simp [hasCLink, ih, Bool.or_assoc]

theorem hasCLink_append_true {aid cid : Nat} {l : List CLink}
    (t : List CLink) (h : hasCLink aid cid l = true) :
    hasCLink aid cid (l ++ t) = true := by
  rw [hasCLink_append, h, Bool.true_or]

/-! ### The record-already-ingested predicate -/

/-- Every listed author name resolves in the store and its link row with the
    given article id is present. -/
def seenAuthors (db : DB) (aid : Nat) : List String → Prop
  | [] => True
  | n :: ns =>
    (∃ u, lookupAuthor n db.authors = some u ∧
          hasALink aid u.id db.article_authors = true) ∧
    seenAuthors db aid ns

/-- Every listed category name resolves and its link row is present. -/
def seenCats (db : DB) (aid : Nat) : List String → Prop
  | [] => True
  | c :: cs =>
    (∃ x, lookupCategory c db.categories = some x ∧
          hasCLink aid x.id db.article_categories = true) ∧
    seenCats db aid cs

/-- The store already holds everything the record would write: its article
    row (under its non-null key), every author and category row, and every
    link row.  Reprocessing such a record is a no-op. -/
def seenRec (db : DB) (r : Record) : Prop :=
  ∃ k row, r.arxiv_id = some k ∧ lookupArticle k db.articles = some row ∧
    seenAuthors db row.id (authorNames r) ∧ seenCats db row.id (catNames r)

theorem seenAuthors_mono {d e : DB} (hext : DBext d e) (aid : Nat) :
    ∀ ns, seenAuthors d aid ns → seenAuthors e aid ns := by
  obtain ⟨_, ⟨t2, e2⟩, _, ⟨t4, e4⟩, _⟩ := hext
  intro ns
  induction ns with
  | nil => intro _; trivial
  | cons n tl ih =>
    intro h
    obtain ⟨⟨u, hu, hl⟩, htl⟩ := h
    exact ⟨⟨u, by rw [e2]; exact lookupAuthor_append_some t2 hu,
             by rw [e4]; exact hasALink_append_true t4 hl⟩, ih htl⟩

theorem seenCats_mono {d e : DB} (hext : DBext d e) (aid : Nat) :
    ∀ cs, seenCats d aid cs → seenCats e aid cs := by
  obtain ⟨_, _, ⟨t3, e3⟩, _, ⟨t5, e5⟩⟩ := hext
  intro cs
  induction cs with
  | nil => intro _; trivial
  | cons c tl ih =>
    intro h
    obtain ⟨⟨x, hx, hl⟩, htl⟩ := h
    exact ⟨⟨x, by rw [e3]; exact lookupCategory_append_some t3 hx,
             by rw [e5]; exact hasCLink_append_true t5 hl⟩, ih htl⟩

theorem seenRec_mono {d e : DB} (hext : DBext d e) {r : Record}
    (h : seenRec d r) : seenRec e r := by
  obtain ⟨k, row, hk, hrow, hsa, hsc⟩ := h
  obtain ⟨t1, e1⟩ := hext.1
  exact ⟨k, row, hk, by rw [e1]; exact lookupArticle_append_some t1 hrow,
         seenAuthors_mono hext row.id _ hsa, seenCats_mono hext row.id _ hsc⟩

/-! ### Behaviour of the primitive store operations -/

theorem lookupArticle_mem {k : String} : ∀ {l : List ArticleRow} {row : ArticleRow},
    lookupArticle k l = some row → row ∈ l := by
  intro l
  induction l with
  | nil => intro row h; simp [lookupArticle] at h
  | cons a tl ih =>
    intro row h
    by_cases ha : a.arxiv_id = some k
    · simp [lookupArticle, ha] at h
      simp [h]
    · simp only [lookupArticle, if_neg ha] at h
      exact List.mem_cons_of_mem a (ih h)

theorem lookupAuthor_mem {n : String} : ∀ {l : List AuthorRow} {u : AuthorRow},
    lookupAuthor n l = some u → u ∈ l := by
  intro l
  induction l with
  | nil => intro u h; simp [lookupAuthor] at h
  | cons a tl ih =>
    intro u h
    by_cases ha : a.name = n
    · simp [lookupAuthor, ha] at h
      simp [h]
    · simp only [lookupAuthor, if_neg ha] at h
      exact List.mem_cons_of_mem a (ih h)

theorem lookupCategory_mem {n : String} : ∀ {l : List CategoryRow} {c : CategoryRow},
    lookupCategory n l = some c → c ∈ l := by
  intro l
  induction l with
  | nil => intro c h; simp [lookupCategory] at h
  | cons a tl ih =>
    intro c h
    by_cases ha : a.name = n
    · simp [lookupCategory, ha] at h
      simp [h]
    · simp only [lookupCategory, if_neg ha] at h
      exact List.mem_cons_of_mem a (ih h)

theorem get_author_id_spec (db : DB) (n : String) :
    DBext db (get_author_id db n).1 ∧
    (get_author_id db n).1.articles = db.articles ∧
    (get_author_id db n).1.categories = db.categories ∧
    (get_author_id db n).1.article_authors = db.article_authors ∧
    (get_author_id db n).1.article_categories = db.article_categories ∧
    ∃ u, lookupAuthor n (get_author_id db n).1.authors = some u ∧
         u.id = (get_author_id db n).2 ∧ u ∈ (get_author_id db n).1.authors := by
  cases hl : lookupAuthor n db.authors with
  | some a =>
    have heq : get_author_id db n = (db, a.id) := by simp [get_author_id, hl]
    rw [heq]
    exact ⟨DBext_refl db, rfl, rfl, rfl, rfl, a, hl, rfl, lookupAuthor_mem hl⟩
  | none =>
    have heq : get_author_id db n =
        ({ db with authors := db.authors ++ [⟨db.nextAuthor, n, none⟩],
                   nextAuthor := db.nextAuthor + 1 }, db.nextAuthor) := by
      simp [get_author_id, hl]
    rw [heq]
    refine ⟨⟨⟨[], by simp⟩, ⟨[⟨db.nextAuthor, n, none⟩], rfl⟩, ⟨[], by simp⟩,
             ⟨[], by simp⟩, ⟨[], by simp⟩⟩, rfl, rfl, rfl, rfl,
           ⟨db.nextAuthor, n, none⟩, ?_, rfl,
           List.mem_append_right _ (List.mem_cons_self _ _)⟩
    show lookupAuthor n (db.authors ++ [⟨db.nextAuthor, n, none⟩]) = _
    rw [lookupAuthor_append, hl]
    simp [lookupAuthor]

theorem get_category_id_spec (db : DB) (n : String) :
    DBext db (get_category_id db n).1 ∧
    (get_category_id db n).1.articles = db.articles ∧
    (get_category_id db n).1.authors = db.authors ∧
    (get_category_id db n).1.article_authors = db.article_authors ∧
    (get_category_id db n).1.article_categories = db.article_categories ∧
    ∃ c, lookupCategory n (get_category_id db n).1.categories = some c ∧
         c.id = (get_category_id db n).2 ∧ c ∈ (get_category_id db n).1.categories := by
  cases hl : lookupCategory n db.categories with
  | some a =>
    have heq : get_category_id db n = (db, a.id) := by simp [get_category_id, hl]
    rw [heq]
    exact ⟨DBext_refl db, rfl, rfl, rfl, rfl, a, hl, rfl, lookupCategory_mem hl⟩
  | none =>
    have heq : get_category_id db n =
        ({ db with categories := db.categories ++ [⟨db.nextCategory, n⟩],
                   nextCategory := db.nextCategory + 1 }, db.nextCategory) := by
      simp [get_category_id, hl]
    rw [heq]
    refine ⟨⟨⟨[], by simp⟩, ⟨[], by simp⟩, ⟨[⟨db.nextCategory, n⟩], rfl⟩,
             ⟨[], by simp⟩, ⟨[], by simp⟩⟩, rfl, rfl, rfl, rfl,
           ⟨db.nextCategory, n⟩, ?_, rfl,
           List.mem_append_right _ (List.mem_cons_self _ _)⟩
    show lookupCategory n (db.categories ++ [⟨db.nextCategory, n⟩]) = _
    rw [lookupCategory_append, hl]
    simp [lookupCategory]

theorem addALinkIfNew_spec (db : DB) (aid uid pos : Nat) :
    DBext db (addALinkIfNew db aid uid pos) ∧
    (addALinkIfNew db aid uid pos).articles = db.articles ∧
    (addALinkIfNew db aid uid pos).authors = db.authors ∧
    (addALinkIfNew db aid uid pos).categories = db.categories ∧
    (addALinkIfNew db aid uid pos).article_categories = db.article_categories ∧
    hasALink aid uid (addALinkIfNew db aid uid pos).article_authors = true := by
  by_cases h : hasALink aid uid db.article_authors = true
  · have heq : addALinkIfNew db aid uid pos = db := by simp [addALinkIfNew, h]
    rw [heq]
    exact ⟨DBext_refl db, rfl, rfl, rfl, rfl, h⟩
  · have heq : addALinkIfNew db aid uid pos =
        { db with article_authors := db.article_authors ++ [⟨aid, uid, pos⟩] } := by
      simp [addALinkIfNew, h]
    rw [heq]
    refine ⟨⟨⟨[], by simp⟩, ⟨[], by simp⟩, ⟨[], by simp⟩,
             ⟨[⟨aid, uid, pos⟩], rfl⟩, ⟨[], by simp⟩⟩, rfl, rfl, rfl, rfl, ?_⟩
    show hasALink aid uid (db.article_authors ++ [⟨aid, uid, pos⟩]) = true
    rw [hasALink_append]
    simp [hasALink]

theorem addCLinkIfNew_spec (db : DB) (aid cid : Nat) :
    DBext db (addCLinkIfNew db aid cid) ∧
    (addCLinkIfNew db aid cid).articles = db.articles ∧
    (addCLinkIfNew db aid cid).authors = db.authors ∧
    (addCLinkIfNew db aid cid).categories = db.categories ∧
    (addCLinkIfNew db aid cid).article_authors = db.article_authors ∧
    hasCLink aid cid (addCLinkIfNew db aid cid).article_categories = true := by
  by_cases h : hasCLink aid cid db.article_categories = true
  · have heq : addCLinkIfNew db aid cid = db := by simp [addCLinkIfNew, h]
    rw [heq]
    exact ⟨DBext_refl db, rfl, rfl, rfl, rfl, h⟩
  · have heq : addCLinkIfNew db aid cid =
        { db with article_categories := db.article_categories ++ [⟨aid, cid⟩] } := by
      simp [addCLinkIfNew, h]
    rw [heq]
    refine ⟨⟨⟨[], by simp⟩, ⟨[], by simp⟩, ⟨[], by simp⟩,
             ⟨[], by simp⟩, ⟨[⟨aid, cid⟩], rfl⟩⟩, rfl, rfl, rfl, rfl, ?_⟩
    show hasCLink aid cid (db.article_categories ++ [⟨aid, cid⟩]) = true
    rw [hasCLink_append]
    simp [hasCLink]

theorem linkAuthors_spec : ∀ (ns : List String) (db : DB) (aid pos : Nat),
    DBext db (linkAuthors db aid ns pos) ∧
    (linkAuthors db aid ns pos).articles = db.articles ∧
    (linkAuthors db aid ns pos).categories = db.categories ∧
    (linkAuthors db aid ns pos).article_categories = db.article_categories ∧
    seenAuthors (linkAuthors db aid ns pos) aid ns := by
  intro ns
  induction ns with
  | nil =>
    intro db aid pos
    exact ⟨DBext_refl db, rfl, rfl, rfl, trivial⟩
  | cons n tl ih =>
    intro db aid pos
    obtain ⟨ext1, hart1, hcat1, _, hac1, u, hu, huid, _⟩ := get_author_id_spec db n
    obtain ⟨ext2, hart2, hauth2, hcat2, hac2, hlink2⟩ :=
      addALinkIfNew_spec (get_author_id db n).1 aid (get_author_id db n).2 pos
    obtain ⟨ext3, hart3, hcat3, hac3, hseen3⟩ :=
      ih (addALinkIfNew (get_author_id db n).1 aid (get_author_id db n).2 pos) aid (pos + 1)
    have hstep : linkAuthors db aid (n :: tl) pos =
        linkAuthors (addALinkIfNew (get_author_id db n).1 aid (get_author_id db n).2 pos)
          aid tl (pos + 1) := rfl
    rw [hstep]
    refine ⟨DBext_trans ext1 (DBext_trans ext2 ext3), ?_, ?_, ?_, ?_, hseen3⟩
    · rw [hart3, hart2, hart1]
    · rw [hcat3, hcat2, hcat1]
    · rw [hac3, hac2, hac1]
    · obtain ⟨_, ⟨t2, e2⟩, _, ⟨t4, e4⟩, _⟩ := ext3
      refine ⟨u, ?_, ?_⟩
      · rw [e2, hauth2]
        exact lookupAuthor_append_some t2 hu
      · rw [huid, e4]
        exact hasALink_append_true t4 hlink2

theorem linkCats_spec : ∀ (cs : List String) (db : DB) (aid : Nat),
    DBext db (linkCats db aid cs) ∧
    (linkCats db aid cs).articles = db.articles ∧
    (linkCats db aid cs).authors = db.authors ∧
    (linkCats db aid cs).article_authors = db.article_authors ∧
    seenCats (linkCats db aid cs) aid cs := by
  intro cs
  induction cs with
  | nil =>
    intro db aid
    exact ⟨DBext_refl db, rfl, rfl, rfl, trivial⟩
  | cons c tl ih =>
    intro db aid
    obtain ⟨ext1, hart1, hauth1, hal1, _, x, hx, hxid, _⟩ := get_category_id_spec db c
    obtain ⟨ext2, hart2, hauth2, hcat2, hal2, hlink2⟩ :=
      addCLinkIfNew_spec (get_category_id db c).1 aid (get_category_id db c).2
    obtain ⟨ext3, hart3, hauth3, hal3, hseen3⟩ :=
      ih (addCLinkIfNew (get_category_id db c).1 aid (get_category_id db c).2) aid
    have hstep : linkCats db aid (c :: tl) =
        linkCats (addCLinkIfNew (get_category_id db c).1 aid (get_category_id db c).2)
          aid tl := rfl
    rw [hstep]
    refine ⟨DBext_trans ext1 (DBext_trans ext2 ext3), ?_, ?_, ?_, ?_, hseen3⟩
    · rw [hart3, hart2, hart1]
    · rw [hauth3, hauth2, hauth1]
    · rw [hal3, hal2, hal1]
    · obtain ⟨_, _, ⟨t3, e3⟩, _, ⟨t5, e5⟩⟩ := ext3
      refine ⟨x, ?_, ?_⟩
      · rw [e3, hcat2]
        exact lookupCategory_append_some t3 hx
      · rw [hxid, e5]
        exact hasCLink_append_true t5 hlink2

theorem insert_article_spec (db : DB) (r : Record) (k : String)
    (hk : r.arxiv_id = some k) :
    ∃ db1 row, insert_article db r = (db1, Except.ok row.id) ∧
      DBext db db1 ∧ lookupArticle k db1.articles = some row ∧ row ∈ db1.articles ∧
      db1.authors = db.authors ∧ db1.categories = db.categories ∧
      db1.article_authors = db.article_authors ∧
      db1.article_categories = db.article_categories := by
  cases hl : lookupArticle k db.articles with
  | some row =>
    exact ⟨db, row, by simp [insert_article, hk, hl], DBext_refl db, hl,
           lookupArticle_mem hl, rfl, rfl, rfl, rfl⟩
  | none =>
    have hlook : lookupArticle k (db.articles ++ [articleRowOf db.nextArticle r])
        = some (articleRowOf db.nextArticle r) := by
      rw [lookupArticle_append, hl]
      simp [lookupArticle, articleRowOf, hk]
    refine ⟨addArticle db r, articleRowOf db.nextArticle r, ?_, ?_, hlook, ?_,
            ?_, ?_, ?_, ?_⟩
    · simp only [insert_article, hk, hl, addArticle]
      rw [hlook]
    · exact ⟨⟨[articleRowOf db.nextArticle r], rfl⟩, ⟨[], by simp [addArticle]⟩,
             ⟨[], by simp [addArticle]⟩, ⟨[], by simp [addArticle]⟩,
             ⟨[], by simp [addArticle]⟩⟩
    · exact List.mem_append_right _ (List.mem_cons_self _ _)
    · rfl
    · rfl
    · rfl
    · rfl

theorem processRecord_spec (db : DB) (r : Record) (k : String)
    (hk : r.arxiv_id = some k) :
    ∃ db3, processRecord db r = (db3, Except.ok ()) ∧ DBext db db3 ∧ seenRec db3 r := by
  obtain ⟨db1, row, heq, ext1, hlook, _, _, _, _, _⟩ := insert_article_spec db r k hk
  obtain ⟨ext2, hart2, hcat2, hac2, hseen2⟩ := linkAuthors_spec (authorNames r) db1 row.id 0
  obtain ⟨ext3, hart3, hauth3, hal3, hseen3⟩ :=
    linkCats_spec (catNames r) (linkAuthors db1 row.id (authorNames r) 0) row.id
  refine ⟨linkCats (linkAuthors db1 row.id (authorNames r) 0) row.id (catNames r),
          ?_, DBext_trans ext1 (DBext_trans ext2 ext3), ?_⟩
  · simp only [processRecord, heq]
  · refine ⟨k, row, hk, ?_, seenAuthors_mono ext3 row.id _ hseen2, hseen3⟩
    rw [hart3, hart2]
    exact hlook

/-! ### Reprocessing a seen record is a no-op -/

theorem linkAuthors_skip : ∀ (ns : List String) (db : DB) (aid pos : Nat),
    seenAuthors db aid ns → linkAuthors db aid ns pos = db := by
  intro ns
  induction ns with
  | nil => intro db aid pos _; rfl
  | cons n tl ih =>
    intro db aid pos h
    obtain ⟨⟨u, hu, hl⟩, htl⟩ := h
    have h1 : get_author_id db n = (db, u.id) := by simp [get_author_id, hu]
    have h2 : addALinkIfNew db aid u.id pos = db := by simp [addALinkIfNew, hl]
    have hstep : linkAuthors db aid (n :: tl) pos =
        linkAuthors (addALinkIfNew (get_author_id db n).1 aid (get_author_id db n).2 pos)
          aid tl (pos + 1) := rfl
    rw [hstep, h1]
    show linkAuthors (addALinkIfNew db aid u.id pos) aid tl (pos + 1) = db
    rw [h2]
    exact ih db aid (pos + 1) htl

theorem linkCats_skip : ∀ (cs : List String) (db : DB) (aid : Nat),
    seenCats db aid cs → linkCats db aid cs = db := by
  intro cs
  induction cs with
  | nil => intro db aid _; rfl
  | cons c tl ih =>
    intro db aid h
    obtain ⟨⟨x, hx, hl⟩, htl⟩ := h
    have h1 : get_category_id db c = (db, x.id) := by simp [get_category_id, hx]
    have h2 : addCLinkIfNew db aid x.id = db := by simp [addCLinkIfNew, hl]
    have hstep : linkCats db aid (c :: tl) =
        linkCats (addCLinkIfNew (get_category_id db c).1 aid (get_category_id db c).2)
          aid tl := rfl
    rw [hstep, h1]
    show linkCats (addCLinkIfNew db aid x.id) aid tl = db
    rw [h2]
    exact ih db aid htl

theorem processRecord_skip (db : DB) (r : Record) (h : seenRec db r) :
    processRecord db r = (db, Except.ok ()) := by
  obtain ⟨k, row, hk, hrow, hsa, hsc⟩ := h
  have h1 : insert_article db r = (db, Except.ok row.id) := by
    simp [insert_article, hk, hrow]
  simp only [processRecord, h1]
  rw [linkAuthors_skip _ _ _ _ hsa, linkCats_skip _ _ _ hsc]

/-! ### Whole-run lemmas -/

theorem ingest_ok_spec : ∀ (rs : List Record) (db : DB),
    (∀ r ∈ rs, ∃ k, r.arxiv_id = some k) →
    ∃ db', ingest db rs = (db', Except.ok ()) ∧ DBext db db' ∧
      ∀ r ∈ rs, seenRec db' r := by
  intro rs
  induction rs with
  | nil =>
    intro db _
    exact ⟨db, rfl, DBext_refl db, by intro r hr; simp at hr⟩
  | cons r tl ih =>
    intro db hkeys
    obtain ⟨k, hk⟩ := hkeys r (List.mem_cons_self r tl)
    obtain ⟨db1, heq, ext1, hseen1⟩ := processRecord_spec db r k hk
    obtain ⟨db2, heq2, ext2, hseenAll⟩ :=
      ih db1 (fun x hx => hkeys x (List.mem_cons_of_mem r hx))
    refine ⟨db2, ?_, DBext_trans ext1 ext2, ?_⟩
    · simp only [ingest, heq, heq2]
    · intro x hx
      rcases List.mem_cons.mp hx with hx1 | hx2
      · subst hx1; exact seenRec_mono ext2 hseen1
      · exact hseenAll x hx2

theorem ingest_skip : ∀ (rs : List Record) (db : DB),
    (∀ r ∈ rs, seenRec db r) → ingest db rs = (db, Except.ok ()) := by
  intro rs
  induction rs with
  | nil => intro db _; rfl
  | cons r tl ih =>
    intro db h
    have h1 := processRecord_skip db r (h r (List.mem_cons_self r tl))
    simp only [ingest, h1]
    exact ih db (fun x hx => h x (List.mem_cons_of_mem r hx))

@[simp] theorem updAuthorRow_name (links : List ALink) (a : AuthorRow) :
    (updAuthorRow links a).name = a.name := rfl

@[simp] theorem updAuthorRow_id (links : List ALink) (a : AuthorRow) :
    (updAuthorRow links a).id = a.id := rfl

theorem lookupAuthor_map_upd (links : List ALink) (n : String) :
    ∀ l : List AuthorRow, lookupAuthor n (l.map (updAuthorRow links))
      = (lookupAuthor n l).map (updAuthorRow links) := by
  intro l
  induction l with
  | nil => simp [lookupAuthor]
  | cons a tl ih =>
    simp only [List.map_cons, lookupAuthor, updAuthorRow_name]
    by_cases h : a.name = n
    · simp [h]
    · simp [h, ih]

theorem seenAuthors_update (db : DB) (aid : Nat) :
    ∀ ns, seenAuthors db aid ns → seenAuthors (update_author_affiliations db) aid ns := by
  intro ns
  induction ns with
  | nil => intro _; trivial
  | cons n tl ih =>
    intro h
    obtain ⟨⟨u, hu, hl⟩, htl⟩ := h
    refine ⟨⟨updAuthorRow db.article_authors u, ?_, ?_⟩, ih htl⟩
    · show lookupAuthor n (db.authors.map (updAuthorRow db.article_authors)) = _
      rw [lookupAuthor_map_upd, hu]
      rfl
    · show hasALink aid (updAuthorRow db.article_authors u).id db.article_authors = true
      rw [updAuthorRow_id]
      exact hl

theorem seenCats_update (db : DB) (aid : Nat) :
    ∀ cs, seenCats db aid cs → seenCats (update_author_affiliations db) aid cs := by
  intro cs
  induction cs with
  | nil => intro _; trivial
  | cons c tl ih =>
    intro h
    obtain ⟨⟨x, hx, hl⟩, htl⟩ := h
    exact ⟨⟨x, hx, hl⟩, ih htl⟩

theorem seenRec_update (db : DB) (r : Record) (h : seenRec db r) :
    seenRec (update_author_affiliations db) r := by
  obtain ⟨k, row, hk, hrow, hsa, hsc⟩ := h
  exact ⟨k, row, hk, hrow, seenAuthors_update db row.id _ hsa,
         seenCats_update db row.id _ hsc⟩

theorem updAuthorRow_comp (links : List ALink) (a : AuthorRow) :
    updAuthorRow links (updAuthorRow links a) = updAuthorRow links a := by
  cases a
  rfl

theorem map_updAuthorRow_idem (links : List ALink) (l : List AuthorRow) :
    (l.map (updAuthorRow links)).map (updAuthorRow links)
      = l.map (updAuthorRow links) := by
  induction l with
  | nil => rfl
  | cons a tl ih => simp only [List.map_cons, updAuthorRow_comp, ih]

theorem update_author_affiliations_idem (db : DB) :
    update_author_affiliations (update_author_affiliations db)
      = update_author_affiliations db := by
  simp only [update_author_affiliations]
  rw [map_updAuthorRow_idem]

/-- C1 (amended, arXiv side): for the database.py pipeline, when every
    record carries a non-null arxiv_id, re-running main over the already
    loaded store with a second pass that presents any records of the first
    set in any order (and any multiplicity) leaves the final store state
    identical to the single run: same article, author and category rows,
    same link rows, same counts. -/
theorem arxiv_reingest_noop (o1 o2 : List Record)
    (h1 : ∀ r ∈ o1, ∃ k, r.arxiv_id = some k)
    (h2 : ∀ r ∈ o2, r ∈ o1) :
    runMainOn (runMain o1).1 o2 = runMain o1 := by
  obtain ⟨S1, heq, _, hseen⟩ := ingest_ok_spec o1 initDB h1
  have hrun : runMain o1 = (update_author_affiliations S1, Except.ok ()) := by
    simp only [runMain, runMainOn, heq]
  have hseenT : ∀ r ∈ o2, seenRec (update_author_affiliations S1) r :=
    fun r hr => seenRec_update S1 r (hseen r (h2 r hr))
  have hing : ingest (update_author_affiliations S1) o2
      = (update_author_affiliations S1, Except.ok ()) := ingest_skip o2 _ hseenT
  rw [hrun]
  show runMainOn (update_author_affiliations S1) o2
      = (update_author_affiliations S1, Except.ok ())
  simp only [runMainOn, hing]
  rw [update_author_affiliations_idem]

def c1rec : Record :=
  { arxiv_id := some "w1", authors := some "Ann Author; Bob Builder",
    categories := some "cs.AI" }

/-- C1 witness: re-ingesting a concrete one-record batch over its own run is
    a no-op. -/
theorem arxiv_reingest_noop_witness :
    runMainOn (runMain [c1rec]).1 [c1rec] = runMain [c1rec] := by
  refine arxiv_reingest_noop [c1rec] [c1rec] ?_ (fun r hr => hr)
  intro r hr
  simp only [List.mem_singleton] at hr
  subst hr
  exact ⟨"w1", rfl⟩

/-! ### Referential integrity of the link tables -/

/-- Every link row refers to an existing article row and an existing author
    row, and every category link to an existing article and category row. -/
def linksOK (db : DB) : Prop :=
  (∀ l ∈ db.article_authors,
     (∃ a ∈ db.articles, a.id = l.article_id) ∧
     (∃ u ∈ db.authors, u.id = l.author_id)) ∧
  (∀ l ∈ db.article_categories,
     (∃ a ∈ db.articles, a.id = l.article_id) ∧
     (∃ c ∈ db.categories, c.id = l.category_id))

theorem mem_articles_ext {d e : DB} (hext : DBext d e) {i : Nat}
    (h : ∃ a ∈ d.articles, a.id = i) : ∃ a ∈ e.articles, a.id = i := by
  obtain ⟨t, ht⟩ := hext.1
  obtain ⟨a, ha, hid⟩ := h
  exact ⟨a, by rw [ht]; exact List.mem_append_left t ha, hid⟩

theorem mem_authors_ext {d e : DB} (hext : DBext d e) {i : Nat}
    (h : ∃ u ∈ d.authors, u.id = i) : ∃ u ∈ e.authors, u.id = i := by
  obtain ⟨t, ht⟩ := hext.2.1
  obtain ⟨u, hu, hid⟩ := h
  exact ⟨u, by rw [ht]; exact List.mem_append_left t hu, hid⟩

theorem mem_categories_ext {d e : DB} (hext : DBext d e) {i : Nat}
    (h : ∃ c ∈ d.categories, c.id = i) : ∃ c ∈ e.categories, c.id = i := by
  obtain ⟨t, ht⟩ := hext.2.2.1
  obtain ⟨c, hc, hid⟩ := h
  exact ⟨c, by rw [ht]; exact List.mem_append_left t hc, hid⟩

theorem linksOK_ext_same_links {d e : DB} (hext : DBext d e) (hok : linksOK d)
    (hal : e.article_authors = d.article_authors)
    (hac : e.article_categories = d.article_categories) : linksOK e := by
  constructor
  · intro l hl
    rw [hal] at hl
    obtain ⟨ha, hu⟩ := hok.1 l hl
    exact ⟨mem_articles_ext hext ha, mem_authors_ext hext hu⟩
  · intro l hl
    rw [hac] at hl
    obtain ⟨ha, hc⟩ := hok.2 l hl
    exact ⟨mem_articles_ext hext ha, mem_categories_ext hext hc⟩

theorem addArticle_ext (db : DB) (r : Record) : DBext db (addArticle db r) :=
  ⟨⟨[articleRowOf db.nextArticle r], rfl⟩, ⟨[], by simp [addArticle]⟩,
   ⟨[], by simp [addArticle]⟩, ⟨[], by simp [addArticle]⟩, ⟨[], by simp [addArticle]⟩⟩

theorem linksOK_addArticle (db : DB) (r : Record) (hok : linksOK db) :
    linksOK (addArticle db r) :=
  linksOK_ext_same_links (addArticle_ext db r) hok rfl rfl

theorem linksOK_addALinkIfNew (db : DB) (aid uid pos : Nat) (hok : linksOK db)
    (ha : ∃ a ∈ db.articles, a.id = aid) (hu : ∃ u ∈ db.authors, u.id = uid) :
    linksOK (addALinkIfNew db aid uid pos) := by
  by_cases h : hasALink aid uid db.article_authors = true
  · have heq : addALinkIfNew db aid uid pos = db := by simp [addALinkIfNew, h]
    rw [heq]
    exact hok
  · have heq : addALinkIfNew db aid uid pos =
        { db with article_authors := db.article_authors ++ [⟨aid, uid, pos⟩] } := by
      simp [addALinkIfNew, h]
    rw [heq]
    constructor
    · intro l hl
      rcases List.mem_append.mp hl with h1 | h2
      · exact hok.1 l h1
      · have h3 : l = ⟨aid, uid, pos⟩ := by simpa using h2
        subst h3
        exact ⟨ha, hu⟩
    · intro l hl
      exact hok.2 l hl

theorem linksOK_addCLinkIfNew (db : DB) (aid cid : Nat) (hok : linksOK db)
    (ha : ∃ a ∈ db.articles, a.id = aid) (hc : ∃ c ∈ db.categories, c.id = cid) :
    linksOK (addCLinkIfNew db aid cid) := by
  by_cases h : hasCLink aid cid db.article_categories = true
  · have heq : addCLinkIfNew db aid cid = db := by simp [addCLinkIfNew, h]
    rw [heq]
    exact hok
  · have heq : addCLinkIfNew db aid cid =
        { db with article_categories := db.article_categories ++ [⟨aid, cid⟩] } := by
      simp [addCLinkIfNew, h]
    rw [heq]
    constructor
    · intro l hl
      exact hok.1 l hl
    · intro l hl
      rcases List.mem_append.mp hl with h1 | h2
      · exact hok.2 l h1
      · have h3 : l = ⟨aid, cid⟩ := by simpa using h2
        subst h3
        exact ⟨ha, hc⟩

theorem linksOK_linkAuthors : ∀ (ns : List String) (db : DB) (aid pos : Nat),
    linksOK db → (∃ a ∈ db.articles, a.id = aid) →
    linksOK (linkAuthors db aid ns pos) := by
  intro ns
  induction ns with
  | nil => intro db aid pos hok _; exact hok
  | cons n tl ih =>
    intro db aid pos hok ha
    obtain ⟨ext1, hart1, hcat1, hal1, hac1, u, _, huid, humem⟩ := get_author_id_spec db n
    have hok1 : linksOK (get_author_id db n).1 :=
      linksOK_ext_same_links ext1 hok hal1 hac1
    have ha1 : ∃ a ∈ (get_author_id db n).1.articles, a.id = aid := by
      rw [hart1]; exact ha
    have hu1 : ∃ x ∈ (get_author_id db n).1.authors, x.id = (get_author_id db n).2 :=
      ⟨u, humem, huid⟩
    have hok2 := linksOK_addALinkIfNew (get_author_id db n).1 aid
      (get_author_id db n).2 pos hok1 ha1 hu1
    obtain ⟨_, hart2, _, _, _, _⟩ :=
      addALinkIfNew_spec (get_author_id db n).1 aid (get_author_id db n).2 pos
    have ha2 : ∃ a ∈ (addALinkIfNew (get_author_id db n).1 aid
        (get_author_id db n).2 pos).articles, a.id = aid := by
      rw [hart2, hart1]; exact ha
    have hstep : linkAuthors db aid (n :: tl) pos =
        linkAuthors (addALinkIfNew (get_author_id db n).1 aid (get_author_id db n).2 pos)
          aid tl (pos + 1) := rfl
    rw [hstep]
    exact ih _ aid (pos + 1) hok2 ha2

theorem linksOK_linkCats : ∀ (cs : List String) (db : DB) (aid : Nat),
    linksOK db → (∃ a ∈ db.articles, a.id = aid) →
    linksOK (linkCats db aid cs) := by
  intro cs
  induction cs with
  | nil => intro db aid hok _; exact hok
  | cons c tl ih =>
    intro db aid hok ha
    obtain ⟨ext1, hart1, hauth1, hal1, hac1, x, _, hxid, hxmem⟩ := get_category_id_spec db c
    have hok1 : linksOK (get_category_id db c).1 :=
      linksOK_ext_same_links ext1 hok hal1 hac1
    have ha1 : ∃ a ∈ (get_category_id db c).1.articles, a.id = aid := by
      rw [hart1]; exact ha
    have hc1 : ∃ y ∈ (get_category_id db c).1.categories, y.id = (get_category_id db c).2 :=
      ⟨x, hxmem, hxid⟩
    have hok2 := linksOK_addCLinkIfNew (get_category_id db c).1 aid
      (get_category_id db c).2 hok1 ha1 hc1
    obtain ⟨_, hart2, _, _, _, _⟩ :=
      addCLinkIfNew_spec (get_category_id db c).1 aid (get_category_id db c).2
    have ha2 : ∃ a ∈ (addCLinkIfNew (get_category_id db c).1 aid
        (get_category_id db c).2).articles, a.id = aid := by
      rw [hart2, hart1]; exact ha
    have hstep : linkCats db aid (c :: tl) =
        linkCats (addCLinkIfNew (get_category_id db c).1 aid (get_category_id db c).2)
          aid tl := rfl
    rw [hstep]
    exact ih _ aid hok2 ha2

theorem linksOK_processRecord (db : DB) (r : Record) (hok : linksOK db) :
    linksOK (processRecord db r).1 := by
  cases hk : r.arxiv_id with
  | none =>
    have heq : processRecord db r = (addArticle db r, Except.error "TypeError") := by
      simp [processRecord, insert_article, hk]
    rw [heq]
    exact linksOK_addArticle db r hok
  | some k =>
    obtain ⟨db1, row, heq, ext1, _, hmem, _, _, hal1, hac1⟩ := insert_article_spec db r k hk
    have hok1 : linksOK db1 := linksOK_ext_same_links ext1 hok hal1 hac1
    have ha1 : ∃ a ∈ db1.articles, a.id = row.id := ⟨row, hmem, rfl⟩
    have hok2 := linksOK_linkAuthors (authorNames r) db1 row.id 0 hok1 ha1
    obtain ⟨_, hart2, _, _, _⟩ := linkAuthors_spec (authorNames r) db1 row.id 0
    have ha2 : ∃ a ∈ (linkAuthors db1 row.id (authorNames r) 0).articles, a.id = row.id := by
      rw [hart2]; exact ha1
    have hok3 := linksOK_linkCats (catNames r) _ row.id hok2 ha2
    have hpr : processRecord db r =
        (linkCats (linkAuthors db1 row.id (authorNames r) 0) row.id (catNames r),
         Except.ok ()) := by
      simp only [processRecord, heq]
    rw [hpr]
    exact hok3

theorem linksOK_ingest : ∀ (rs : List Record) (db : DB),
    linksOK db → linksOK (ingest db rs).1 := by
  intro rs
  induction rs with
  | nil => intro db hok; exact hok
  | cons r tl ih =>
    intro db hok
    have hok1 := linksOK_processRecord db r hok
    rcases hpr : processRecord db r with ⟨db1, e⟩
    rw [hpr] at hok1
    cases e with
    | ok u =>
      have hstep : ingest db (r :: tl) = ingest db1 tl := by simp [ingest, hpr]
      rw [hstep]
      exact ih db1 hok1
    | error msg =>
      have hstep : ingest db (r :: tl) = (db1, Except.error msg) := by simp [ingest, hpr]
      rw [hstep]
      exact hok1

theorem linksOK_update (db : DB) (hok : linksOK db) :
    linksOK (update_author_affiliations db) := by
  constructor
  · intro l hl
    refine ⟨(hok.1 l hl).1, ?_⟩
    obtain ⟨u, humem, hid⟩ := (hok.1 l hl).2
    exact ⟨updAuthorRow db.article_authors u, List.mem_map_of_mem _ humem,
           by rw [updAuthorRow_id]; exact hid⟩
  · exact hok.2

theorem linksOK_runMainOn (db : DB) (rs : List Record) (hok : linksOK db) :
    linksOK ((runMainOn db rs).1) := by
  have h1 := linksOK_ingest rs db hok
  rcases hing : ingest db rs with ⟨db1, e⟩
  rw [hing] at h1
  cases e with
  | ok u =>
    have hstep : runMainOn db rs = (update_author_affiliations db1, Except.ok ()) := by
      simp [runMainOn, hing]
    rw [hstep]
    exact linksOK_update db1 h1
  | error msg =>
    have hstep : runMainOn db rs = (db1, Except.error msg) := by simp [runMainOn, hing]
    rw [hstep]
    exact h1

/-- C2 (amended, arXiv side): the fresh store satisfies referential
    integrity of both link tables, and any run of the database.py pipeline
    over any store preserves it: every article_authors row refers to an
    existing article row and author row, every article_categories row to an
    existing article row and category row. -/
theorem arxiv_no_dangling_links :
    linksOK initDB ∧
    ∀ (db : DB) (rs : List Record), linksOK db → linksOK ((runMainOn db rs).1) := by
  constructor
  · constructor
    · intro l hl
      simp [initDB] at hl
    · intro l hl
      simp [initDB] at hl
  · intro db rs hok
    exact linksOK_runMainOn db rs hok

def c2rec : Record :=
  { arxiv_id := some "n1", authors := some "Carol; Dave", categories := some "math.CO" }

/-- C2 witness: referential integrity holds after a concrete run on a fresh
    store. -/
theorem arxiv_no_dangling_links_witness :
    linksOK ((runMainOn initDB [c2rec]).1) :=
  arxiv_no_dangling_links.2 initDB [c2rec] arxiv_no_dangling_links.1

/-! ### JSON values and decoding (the json.loads call of the extractor) -/

/-- A decoded Python/JSON value.  Numbers with a fraction or exponent, and
    the NaN and Infinity constants json.loads accepts, are floats and are
    kept as their raw text (no claim inspects a float value). -/
inductive JVal where
  | jnull : JVal
  | jbool (b : Bool) : JVal
  | jnum (n : Int) : JVal
  | jfrac (raw : String) : JVal
  | jstr (s : String) : JVal
  | jarr (xs : List JVal) : JVal
  | jobj (kvs : List (String × JVal)) : JVal

def jsonWs (c : Char) : Bool := c = ' ' || c = '\t' || c = '\n' || c = '\r'

def skipWsL (l : List Char) : List Char := l.dropWhile jsonWs

def hexVal (c : Char) : Option Nat :=
  if '0' ≤ c ∧ c ≤ '9' then some (c.toNat - 48)
  else if 'a' ≤ c ∧ c ≤ 'f' then some (c.toNat - 97 + 10)
  else if 'A' ≤ c ∧ c ≤ 'F' then some (c.toNat - 65 + 10)
  else none

/-- Body of a JSON string literal after the opening quote, with the strict
    escape handling of json.loads (raw control characters are rejected). -/
def parseStrBody : Nat → List Char → Option (List Char × List Char)
  | 0, _ => none
  | _ + 1, [] => none
  | fuel + 1, c :: cs =>
    if c = '\x22' then some ([], cs)
    else if c = '\\' then
      match cs with
      | 'n' :: r => (parseStrBody fuel r).map (fun p => ('\n' :: p.1, p.2))
      | 't' :: r => (parseStrBody fuel r).map (fun p => ('\t' :: p.1, p.2))
      | 'r' :: r => (parseStrBody fuel r).map (fun p => ('\r' :: p.1, p.2))
      | 'b' :: r => (parseStrBody fuel r).map (fun p => ('\x08' :: p.1, p.2))
      | 'f' :: r => (parseStrBody fuel r).map (fun p => ('\x0c' :: p.1, p.2))
      | '/' :: r => (parseStrBody fuel r).map (fun p => ('/' :: p.1, p.2))
      | '\\' :: r => (parseStrBody fuel r).map (fun p => ('\\' :: p.1, p.2))
      | '\x22' :: r => (parseStrBody fuel r).map (fun p => ('\x22' :: p.1, p.2))
      | 'u' :: h1 :: h2 :: h3 :: h4 :: r =>
        match hexVal h1, hexVal h2, hexVal h3, hexVal h4 with
        | some a, some b, some c2, some d =>
          (parseStrBody fuel r).map
            (fun p => (Char.ofNat (((a * 16 + b) * 16 + c2) * 16 + d) :: p.1, p.2))
        | _, _, _, _ => none
      | _ => none
    else if c.toNat < 32 then none
    else (parseStrBody fuel cs).map (fun p => (c :: p.1, p.2))

def isDigitCh (c : Char) : Bool := '0' ≤ c && c ≤ '9'

def digitsToNat (ds : List Char) : Nat :=
  ds.foldl (fun acc c => acc * 10 + (c.toNat - 48)) 0

def parseFrac : List Char → Option (List Char × List Char)
  | '.' :: rest =>
    let ds := rest.takeWhile isDigitCh
    if ds.isEmpty then none else some ('.' :: ds, rest.dropWhile isDigitCh)
  | l => some ([], l)

def parseExpDigits (pre : List Char) (l : List Char) : Option (List Char × List Char) :=
  let ds := l.takeWhile isDigitCh
  if ds.isEmpty then none else some (pre ++ ds, l.dropWhile isDigitCh)

def parseExpTail (e : Char) : List Char → Option (List Char × List Char)
  | '+' :: rest => parseExpDigits [e, '+'] rest
  | '-' :: rest => parseExpDigits [e, '-'] rest
  | rest => parseExpDigits [e] rest

def parseExp : List Char → Option (List Char × List Char)
  | 'e' :: rest => parseExpTail 'e' rest
  | 'E' :: rest => parseExpTail 'E' rest
  | l => some ([], l)

def intOfDigits (sign ds : List Char) : Int :=
  match sign with
  | [] => Int.ofNat (digitsToNat ds)
  | _ => -(Int.ofNat (digitsToNat ds))

/-- A JSON number literal: optional minus, integer part without leading
    zeros, optional fraction and exponent (kept as raw text). -/
def parseNum (l : List Char) : Option (JVal × List Char) :=
  let sign : List Char := match l with | '-' :: _ => ['-'] | _ => []
  let l1 := match l with | '-' :: r => r | _ => l
  let ds := l1.takeWhile isDigitCh
  let r1 := l1.dropWhile isDigitCh
  if ds.isEmpty then none
  else if ds.length > 1 ∧ ds.head? = some '0' then none
  else
    match parseFrac r1 with
    | none => none
    | some (fr, r2) =>
      match parseExp r2 with
      | none => none
      | some (ex, r3) =>
        if fr.isEmpty && ex.isEmpty then some (.jnum (intOfDigits sign ds), r3)
        else some (.jfrac (sign ++ ds ++ fr ++ ex).asString, r3)

mutual

def parseVal : Nat → List Char → Option (JVal × List Char)
  | 0, _ => none
  | fuel + 1, l =>
    match skipWsL l with
    | [] => none
    | 't' :: r => if hasPfx "rue".toList r then some (.jbool true, r.drop 3) else none
    | 'f' :: r => if hasPfx "alse".toList r then some (.jbool false, r.drop 4) else none
    | 'n' :: r => if hasPfx "ull".toList r then some (.jnull, r.drop 3) else none
    | 'N' :: r => if hasPfx "aN".toList r then some (.jfrac "NaN", r.drop 2) else none
    | 'I' :: r =>
      if hasPfx "nfinity".toList r then some (.jfrac "Infinity", r.drop 7) else none
    | '\x22' :: r =>
      match parseStrBody (r.length + 1) r with
      | some (s, rest) => some (.jstr s.asString, rest)
      | none => none
    | '[' :: r =>
      match skipWsL r with
      | ']' :: r2 => some (.jarr [], r2)
      | r2 =>
        match parseArrItems fuel r2 with
        | some (xs, rest) => some (.jarr xs, rest)
        | none => none
    | '\x7b' :: r =>
      match skipWsL r with
      | '\x7d' :: r2 => some (.jobj [], r2)
      | r2 =>
        match parseObjItems fuel r2 with
        | some (kvs, rest) => some (.jobj kvs, rest)
        | none => none
    | '-' :: 'I' :: r =>
      if hasPfx "nfinity".toList r then some (.jfrac "-Infinity", r.drop 7) else none
    | l2 => parseNum l2

def parseArrItems : Nat → List Char → Option (List JVal × List Char)
  | 0, _ => none
  | fuel + 1, l =>
    match parseVal fuel l with
    | none => none
    | some (v, rest) =>
      match skipWsL rest with
      | ',' :: r2 =>
        match parseArrItems fuel r2 with
        | some (xs, r3) => some (v :: xs, r3)
        | none => none
      | ']' :: r2 => some ([v], r2)
      | _ => none

def parseObjItems : Nat → List Char → Option (List (String × JVal) × List Char)
  | 0, _ => none
  | fuel + 1, l =>
    match skipWsL l with
    | '\x22' :: r =>
      match parseStrBody (r.length + 1) r with
      | none => none
      | some (kcs, r2) =>
        match skipWsL r2 with
        | ':' :: r3 =>
          match parseVal fuel r3 with
          | none => none
          | some (v, r4) =>
            match skipWsL r4 with
            | ',' :: r5 =>
              match parseObjItems fuel r5 with
              | some (kvs, r6) => some ((kcs.asString, v) :: kvs, r6)
              | none => none
            | '\x7d' :: r5 => some ([(kcs.asString, v)], r5)
            | _ => none
        | _ => none
    | _ => none

end

/-- json.loads: a whole-input parse; trailing non-whitespace is an error. -/
def jsonDecode (s : String) : Option JVal :=
  match parseVal (2 * s.length + 2) s.toList with
  | some (v, rest) => if skipWsL rest = [] then some v else none
  | none => none

/-! ### extract_authors_info of data_cleaning.py -/

/-- Whether a raw float literal denotes zero: its sign is ignored, every
    mantissa digit is 0 and the exponent cannot change that; the NaN and
    Infinity constants have no leading digit and are nonzero (and truthy,
    as in Python). -/
def jfracIsZero (raw : String) : Bool :=
  let l1 := match raw.toList with
    | '-' :: r => r
    | l => l
  let mant := l1.takeWhile (fun c => isDigitCh c || c = '.')
  !mant.isEmpty && mant.all (fun c => c = '0' || c = '.')

/-- Python truthiness of the decoded values that can reach the affiliation
    check (for a float, nonzero). -/
def pyTruthy : JVal → Bool
  | .jnull => false
  | .jbool b => b
  | .jnum n => n != 0
  | .jfrac raw => !(jfracIsZero raw)
  | .jstr s => s != ""
  | .jarr xs => !xs.isEmpty
  | .jobj kvs => !kvs.isEmpty

/-- Python dict lookup: with duplicate keys the later binding wins. -/
def jGet : List (String × JVal) → String → Option JVal
  | [], _ => none
  | (k2, v) :: tl, k =>
    match jGet tl k with
    | some v2 => some v2
    | none => if k2 = k then some v else none

def jGetD (kvs : List (String × JVal)) (k : String) (d : JVal) : JVal :=
  (jGet kvs k).getD d

/-- The .get method: defined on dicts, raises AttributeError otherwise. -/
def dictGetD (v : JVal) (k : String) (d : JVal) : Option JVal :=
  match v with
  | .jobj kvs => some (jGetD kvs k d)
  | _ => none

/-- Python subscript [0]: first element of a list, first character of a
    string, and an exception (IndexError, KeyError or TypeError) on
    anything else, including the empty list and empty string. -/
def pyIndex0 : JVal → Option JVal
  | .jarr (x :: _) => some x
  | .jstr s =>
    match s.toList with
    | c :: _ => some (.jstr (String.mk [c]))
    | [] => none
  | _ => none

/-- One extracted author record of extract_authors_info. -/
structure AuthorInfo where
  scopus_id : JVal
  orcid : JVal
  given_name : JVal
  surname : JVal
  affiliation_id : JVal
  affiliation_name : JVal

/-- The body of the per-author try block: any exception while building the
    author_info dict is caught by the inner except and drops the entry. -/
def tryExtractAuthor (author : JVal) : Option AuthorInfo :=
  match author with
  | .jobj kvs =>
    let auid := jGetD kvs "@auid" (.jstr "")
    let orcid := jGetD kvs "@orcid" (.jstr "")
    let pref := jGetD kvs "preferred-name" (.jobj [])
    match dictGetD pref "given-name" (.jstr "") with
    | none => none
    | some gname =>
      match dictGetD pref "surname" (.jstr "") with
      | none => none
      | some sname =>
        let aff := jGetD kvs "affiliation" (.jarr [.jobj []])
        match pyIndex0 aff with
        | none => none
        | some aff0 =>
          match dictGetD aff0 "@id" (.jstr "") with
          | none => none
          | some affId =>
            match dictGetD aff0 "@name" (.jstr "") with
            | none => none
            | some affName => some ⟨auid, orcid, gname, sname, affId, affName⟩
  | _ => none

/-- The raw author-field value as it reaches extract_authors_info: a NaN
    cell, a string (from a CSV cell), a number (a numeric-looking CSV cell
    parsed by pandas), or an already decoded list of structures. -/
inductive RawField where
  | nan : RawField
  | str (s : String) : RawField
  | intVal (n : Int) : RawField
  | list (xs : List JVal) : RawField

/-- The replace call of the extractor: every single quote becomes a double
    quote, everywhere in the field. -/
def pyReplaceQuotes (s : String) : String :=
  (s.toList.map (fun c => if c = '\x27' then '\x22' else c)).asString

/-- The for loop of the extractor over a decoded value: lists yield their
    elements, dicts their keys, strings their characters (non-dict elements
    are dropped by the inner except), and a non-iterable decoded value
    raises TypeError. -/
def iterAuthors : JVal → Except String (List AuthorInfo)
  | .jarr xs => Except.ok (xs.filterMap tryExtractAuthor)
  | .jobj kvs => Except.ok ((kvs.map (fun kv => JVal.jstr kv.1)).filterMap tryExtractAuthor)
  | .jstr s =>
    Except.ok ((s.toList.map (fun c => JVal.jstr (String.mk [c]))).filterMap tryExtractAuthor)
  | _ => Except.error "TypeError: not iterable"

/-- The string branch: json.loads of the quote-replaced field; a decode
    error is swallowed and yields the empty author list. -/
def decodeAuthorsField (t : String) : Except String (List AuthorInfo) :=
  match jsonDecode t with
  | none => Except.ok []
  | some v => iterAuthors v

/-- DataCleaner.extract_authors_info of data_cleaning.py.  On a list input
    the pd.isna check is elementwise: it returns a boolean array, and the
    if statement takes its truth value.  For an empty list that is False
    (numpy deprecation warning aside) and the loop over no elements yields
    the empty result; for a one-element list it is the isna value of the
    single element, and a null-like element (for which it is True, so the
    source returns early) is exactly an element the guarded loop would drop
    anyway, so the one-element case is the filterMap of the loop body; for
    two or more elements the truth value of the array is ambiguous and the
    source raises ValueError before reaching the loop. -/
def extract_authors_info : RawField → Except String (List AuthorInfo)
  | .nan => Except.ok []
  | .str s => decodeAuthorsField (pyReplaceQuotes s)
  | .intVal _ => Except.error "TypeError: not iterable"
  | .list [] => Except.ok []
  | .list [x] => Except.ok ([x].filterMap tryExtractAuthor)
  | .list (_ :: _ :: _) => Except.error "ValueError: ambiguous truth value"

/-- C10: the string branch first replaces every single quote with a double
    quote and only then attempts the JSON decode; a field whose string value
    contains an apostrophe (the surname O Brien written with an apostrophe)
    thus becomes invalid JSON, the decode fails, and every author entry of
    the record is dropped, while the same field with an apostrophe-free
    surname still yields its author entry. -/
theorem quote_replacement_drops_authors :
    (∀ s, extract_authors_info (RawField.str s)
        = decodeAuthorsField (pyReplaceQuotes s)) ∧
    extract_authors_info
        (RawField.str "[\x7b\x27preferred-name\x27: \x7b\x27surname\x27: \"O\x27Brien\"\x7d\x7d]")
      = Except.ok [] ∧
    extract_authors_info
        (RawField.str "[\x7b\x27preferred-name\x27: \x7b\x27surname\x27: \x27Smith\x27\x7d\x7d]")
      = Except.ok [⟨JVal.jstr "", JVal.jstr "", JVal.jstr "", JVal.jstr "Smith",
                    JVal.jstr "", JVal.jstr ""⟩] :=
  ⟨fun _ => rfl, rfl, rfl⟩

/-! ### The Scopus ingestion pipeline (data_cleaning.py save_to_database) -/

def listJBeq (f : JVal → JVal → Bool) : List JVal → List JVal → Bool
  | [], [] => true
  | x :: xs, y :: ys => f x y && listJBeq f xs ys
  | _, _ => false

def kvJBeq (f : JVal → JVal → Bool) :
    List (String × JVal) → List (String × JVal) → Bool
  | [], [] => true
  | (k1, x) :: xs, (k2, y) :: ys => k1 = k2 && f x y && kvJBeq f xs ys
  | _, _ => false

/-- Structural equality of decoded values, with a depth fuel. -/
def jvalBeqF : Nat → JVal → JVal → Bool
  | 0, _, _ => false
  | fuel + 1, a, b =>
    match a, b with
    | .jnull, .jnull => true
    | .jbool x, .jbool y => x == y
    | .jnum x, .jnum y => x == y
    | .jfrac x, .jfrac y => x == y
    | .jstr x, .jstr y => x == y
    | .jarr xs, .jarr ys => listJBeq (jvalBeqF fuel) xs ys
    | .jobj xs, .jobj ys => kvJBeq (jvalBeqF fuel) xs ys
    | _, _ => false

/-- Equality of decoded values.  The fuel only bounds the nesting depth of
    the compared values; one unit is consumed per nesting level, so the
    constant covers every value a bibliographic record can realistically
    nest. -/
def jvalBeq (a b : JVal) : Bool := jvalBeqF 1000000 a b

/-- One cleaned Scopus dataframe row as save_to_database consumes it; the
    dc:identifier of a row is assumed present (records without it are out
    of the ingestion contract). -/
structure ScopusRec where
  dc_identifier : String
  prism_doi : Option String := none
  dc_title : Option String := none
  dc_description : Option String := none
  prism_coverDate : Option String := none
  prism_publicationName : Option String := none
  authkeywords : Option String := none
  subject_area : List String := []
  author : RawField := RawField.nan

/-- A row of the scopus.sqlite articles table (scopus_id and doi UNIQUE). -/
structure SArticleRow where
  id : Nat
  scopus_id : String
  doi : Option String
  title : Option String
  abstract : Option String
  publication_date : Option String
  publication_name : Option String
  keywords : Option String
  subject_areas : String

/-- A row of the scopus.sqlite authors table (scopus_id UNIQUE); the column
    values are whatever objects the extractor produced. -/
structure SAuthorRow where
  id : Nat
  scopus_id : JVal
  orcid : JVal
  given_name : JVal
  surname : JVal

/-- A row of the affiliations table (scopus_id UNIQUE, country always empty). -/
structure SAffilRow where
  id : Nat
  scopus_id : JVal
  name : JVal
  country : String

/-- The whole scopus.sqlite store. -/
structure SDB where
  articles : List SArticleRow
  authors : List SAuthorRow
  affiliations : List SAffilRow
  article_author : List (Nat × Nat)
  author_affiliation : List (Nat × Nat)
  nextArticle : Nat
  nextAuthor : Nat
  nextAffil : Nat

def initSDB : SDB := ⟨[], [], [], [], [], 1, 1, 1⟩

/-- The join performed on the subject_areas column before insertion. -/
def joinCommaSpace : List String → String
  | [] => ""
  | [s] => s
  | s :: tl => s ++ ", " ++ joinCommaSpace tl

def sArticleRowOf (i : Nat) (r : ScopusRec) : SArticleRow :=
  ⟨i, r.dc_identifier, r.prism_doi, r.dc_title, r.dc_description, r.prism_coverDate,
   r.prism_publicationName, r.authkeywords, joinCommaSpace r.subject_area⟩

/-- The doi UNIQUE constraint: NULL never conflicts. -/
def doiConflict (x y : Option String) : Bool :=
  match x, y with
  | some a, some b => a = b
  | _, _ => false

/-- articles.to_sql(if_exists=append): the rows are inserted inside one
    transaction, so the first UNIQUE violation aborts and rolls back the
    whole insert. -/
def insertArticlesScopus (tbl : List SArticleRow) (next : Nat) :
    List ScopusRec → Option (List SArticleRow × Nat)
  | [] => some (tbl, next)
  | r :: rs =>
    let row := sArticleRowOf next r
    if tbl.any (fun a => a.scopus_id = row.scopus_id || doiConflict a.doi row.doi)
    then none
    else insertArticlesScopus (tbl ++ [row]) (next + 1) rs

def lookupSArticle (sid : String) : List SArticleRow → Option SArticleRow
  | [] => none
  | a :: tl => if a.scopus_id = sid then some a else lookupSArticle sid tl

/-- One pending authors-table row, before id assignment. -/
structure SAuthorData where
  scopus_id : JVal
  orcid : JVal
  given_name : JVal
  surname : JVal

/-- One pending affiliations-table row, before id assignment. -/
structure SAffilData where
  scopus_id : JVal
  name : JVal

/-- The four in-memory lists built by the author loop. -/
structure SAccum where
  authorsData : List SAuthorData
  affData : List SAffilData
  aaLinks : List (Nat × Nat)
  afLinks : List (Nat × Nat)

/-- One iteration of the author loop: the link rows use the position in the
    (not yet deduplicated) authors_data list, plus one, as the assumed
    future rowid. -/
def processScopusAuthor (aid : Nat) (a : AuthorInfo) (acc : SAccum) : SAccum :=
  let ad := acc.authorsData ++ [⟨a.scopus_id, a.orcid, a.given_name, a.surname⟩]
  let affD := if pyTruthy a.affiliation_id
              then acc.affData ++ [⟨a.affiliation_id, a.affiliation_name⟩]
              else acc.affData
  let authorIdx := ad.length - 1
  let aa := acc.aaLinks ++ [(aid, authorIdx + 1)]
  let af := if pyTruthy a.affiliation_id
            then acc.afLinks ++ [(authorIdx + 1, (affD.length - 1) + 1)]
            else acc.afLinks
  ⟨ad, affD, aa, af⟩

def processScopusAuthorList (aid : Nat) : List AuthorInfo → SAccum → SAccum
  | [], acc => acc
  | a :: tl, acc => processScopusAuthorList aid tl (processScopusAuthor aid a acc)

/-- The record loop: resolve the article id from the freshly read articles
    table (a missing id raises IndexError), extract the authors (which can
    itself raise), and accumulate the pending rows. -/
def processScopusRecords (tbl : List SArticleRow) :
    List ScopusRec → SAccum → Except String SAccum
  | [], acc => Except.ok acc
  | r :: rs, acc =>
    match lookupSArticle r.dc_identifier tbl with
    | none => Except.error "IndexError"
    | some arow =>
      match extract_authors_info r.author with
      | Except.error e => Except.error e
      | Except.ok authors =>
        processScopusRecords tbl rs (processScopusAuthorList arow.id authors acc)

/-- drop_duplicates on the scopus_id column: keep the first occurrence of
    every key, preserving order. -/
def dedupAuthorsAux (seen : List JVal) : List SAuthorData → List SAuthorData
  | [] => []
  | d :: tl =>
    if seen.any (fun x => jvalBeq x d.scopus_id) then dedupAuthorsAux seen tl
    else d :: dedupAuthorsAux (d.scopus_id :: seen) tl

def dedupAuthors (l : List SAuthorData) : List SAuthorData := dedupAuthorsAux [] l

def dedupAffilsAux (seen : List JVal) : List SAffilData → List SAffilData
  | [] => []
  | d :: tl =>
    if seen.any (fun x => jvalBeq x d.scopus_id) then dedupAffilsAux seen tl
    else d :: dedupAffilsAux (d.scopus_id :: seen) tl

def dedupAffils (l : List SAffilData) : List SAffilData := dedupAffilsAux [] l

def insertSAuthors (tbl : List SAuthorRow) (next : Nat) :
    List SAuthorData → Option (List SAuthorRow × Nat)
  | [] => some (tbl, next)
  | d :: tl =>
    if tbl.any (fun a => jvalBeq a.scopus_id d.scopus_id) then none
    else insertSAuthors
      (tbl ++ [⟨next, d.scopus_id, d.orcid, d.given_name, d.surname⟩]) (next + 1) tl

def insertSAffils (tbl : List SAffilRow) (next : Nat) :
    List SAffilData → Option (List SAffilRow × Nat)
  | [] => some (tbl, next)
  | d :: tl =>
    if tbl.any (fun a => jvalBeq a.scopus_id d.scopus_id) then none
    else insertSAffils (tbl ++ [⟨next, d.scopus_id, d.name, ""⟩]) (next + 1) tl

/-- to_sql append into a join table with a composite primary key. -/
def insertPairs (tbl : List (Nat × Nat)) : List (Nat × Nat) → Option (List (Nat × Nat))
  | [] => some tbl
  | p :: tl => if tbl.contains p then none else insertPairs (tbl ++ [p]) tl

/-- DataCleaner.save_to_database of data_cleaning.py over a persistent
    store: append the article rows, rebuild the author and affiliation data
    in memory, deduplicate, and append rows and link rows; any uncaught
    IntegrityError aborts the run with the writes committed so far. -/
def save_to_database (db : SDB) (df : List ScopusRec) : SDB × Except String Unit :=
  match insertArticlesScopus db.articles db.nextArticle df with
  | none => (db, Except.error "IntegrityError")
  | some (arts, nextA) =>
    let db1 : SDB := { db with articles := arts, nextArticle := nextA }
    match processScopusRecords arts df ⟨[], [], [], []⟩ with
    | Except.error e => (db1, Except.error e)
    | Except.ok acc =>
      match insertSAuthors db1.authors db1.nextAuthor (dedupAuthors acc.authorsData) with
      | none => (db1, Except.error "IntegrityError")
      | some (auths, nextU) =>
        let db2 : SDB := { db1 with authors := auths, nextAuthor := nextU }
        match insertSAffils db2.affiliations db2.nextAffil (dedupAffils acc.affData) with
        | none => (db2, Except.error "IntegrityError")
        | some (affs, nextF) =>
          let db3 : SDB := { db2 with affiliations := affs, nextAffil := nextF }
          match insertPairs db3.article_author acc.aaLinks with
          | none => (db3, Except.error "IntegrityError")
          | some aa =>
            let db4 : SDB := { db3 with article_author := aa }
            match insertPairs db4.author_affiliation acc.afLinks with
            | none => (db4, Except.error "IntegrityError")
            | some af => ({ db4 with author_affiliation := af }, Except.ok ())

def c1srec : ScopusRec :=
  { dc_identifier := "SCOPUS_ID:1", prism_doi := some "10.1/1", dc_title := some "T",
    dc_description := some "A" }

/-- C1 counterexample: the Scopus pipeline is not idempotent: ingesting the
    same one-record set a second time does not reproduce the single-run
    state as a completed ingestion; the append into the articles table hits
    the UNIQUE scopus_id constraint and the second run aborts with an
    IntegrityError. -/
theorem scopus_reingest_fails_cx :
    (save_to_database initSDB [c1srec]).2 = Except.ok () ∧
    (save_to_database (save_to_database initSDB [c1srec]).1 [c1srec]).2
      = Except.error "IntegrityError" := ⟨rfl, rfl⟩

def sharedAuthor : JVal := JVal.jobj [("@auid", JVal.jstr "77")]

def c2srec1 : ScopusRec :=
  { dc_identifier := "SCOPUS_ID:A", author := RawField.list [sharedAuthor] }

def c2srec2 : ScopusRec :=
  { dc_identifier := "SCOPUS_ID:B", author := RawField.list [sharedAuthor] }

/-- C2 counterexample: the Scopus pipeline creates a dangling link.  Two
    articles sharing one author produce the link rows (1,1) and (2,2)
    computed from positions in the pre-deduplication list, but after
    drop_duplicates the authors table holds the single row with id 1: the
    link row (2,2) refers to no author row. -/
theorem scopus_dangling_link_cx :
    (save_to_database initSDB [c2srec1, c2srec2]).2 = Except.ok () ∧
    (save_to_database initSDB [c2srec1, c2srec2]).1.article_author = [(1, 1), (2, 2)] ∧
    ((save_to_database initSDB [c2srec1, c2srec2]).1.authors.map SAuthorRow.id) = [1] ∧
    ((save_to_database initSDB [c2srec1, c2srec2]).1.authors.all
        (fun u => u.id ≠ 2)) = true := ⟨rfl, rfl, rfl, rfl⟩
